import Mathlib

/-!
Verification of the cross-exchange normalization and funding-PnL aggregation
engine of the trading_dashboard repository.

The Python sources are embedded shallowly:
* strings are `List Char` (Python `str.replace` with empty replacement is
  `removeAll`, `startswith` is `List.isPrefixOf`, `endswith` is `endsWithL`);
* floats are `ℚ` (every quantity the claims mention is produced by field
  arithmetic); the `float('nan')` marker used by `calculate_funding_payments`
  is `Option ℚ` with `none` standing for NaN;
* a Python expression that can raise `ZeroDivisionError` (or whose network
  fetch can raise) is embedded in `Option`/`Except`, with `none`/`error`
  standing for the raised exception.
-/

namespace TradingDashboard

/-- Convert a string literal to the `List Char` representation used throughout. -/
def lc (s : String) : List Char := s.data

/-- Fuel-indexed worker for `removeAll`; the fuel only serves to make the
recursion structural, `removeAll` always supplies enough. -/
def removeAllF (pat : List Char) : Nat → List Char → List Char
  | _, [] => []
  | 0, s => s
  | fuel + 1, c :: rest =>
    if pat.isPrefixOf (c :: rest) ∧ pat.length ≠ 0 then
      removeAllF pat fuel (List.drop (pat.length - 1) rest)
    else
      c :: removeAllF pat fuel rest

/-- Python `s.replace(pat, '')`: remove every occurrence of `pat` in `s`,
scanning left to right, non-overlapping. -/
def removeAll (pat s : List Char) : List Char := removeAllF pat s.length s

/-- Python `pat in s`: does `pat` occur as a contiguous substring of `s`? -/
def containsSub (pat : List Char) : List Char → Bool
  | [] => pat.isEmpty
  | c :: rest => pat.isPrefixOf (c :: rest) || containsSub pat rest

/-- Python `s.endswith(suf)` on the `List Char` representation. -/
def endsWithL (suf s : List Char) : Bool := suf.reverse.isPrefixOf s.reverse

/-- Python `s.isdigit()`: nonempty and all characters are digits. -/
def pyIsDigit (l : List Char) : Bool := !l.isEmpty && l.all Char.isDigit

/-- Python `s[1].isupper()` guarded by length, as used by the `k`-prefix rule. -/
def secondUpper : List Char → Bool
  | _ :: d :: _ => d.isUpper
  | _ => false

/-- Association-list lookup with string keys (Python `dict` read). -/
def lookupA {β : Type} (k : String) : List (String × β) → Option β
  | [] => none
  | (k', v) :: t => if k' = k then some v else lookupA k t

/-- Python `d[k] = v` on an insertion-ordered dict: replace the value at an
existing key in place, or append the new key at the end. -/
def setA {β : Type} (k : String) (v : β) : List (String × β) → List (String × β)
  | [] => [(k, v)]
  | (k', v') :: t => if k' = k then (k, v) :: t else (k', v') :: setA k v t

/-- Python `if k not in d: d[k] = dflt` followed by an in-place update of
`d[k]` through `f`. -/
def modifyA {β : Type} (k : String) (dflt : β) (f : β → β) :
    List (String × β) → List (String × β)
  | [] => [(k, f dflt)]
  | (k', v') :: t => if k' = k then (k, f v') :: t else (k', v') :: modifyA k dflt f t

/-- All unordered pairs of a list in the nested-loop order
`for i in range(n): for j in range(i+1, n)`. -/
def pairsLT {α : Type} : List α → List (α × α)
  | [] => []
  | x :: xs => xs.map (fun y => (x, y)) ++ pairsLT xs

/-- Sequence a list of fallible computations; the first failure aborts the
whole run (a raised exception propagating out of a Python loop). -/
def listMapM {α β : Type} (f : α → Option β) : List α → Option (List β)
  | [] => some []
  | x :: xs =>
    match f x, listMapM f xs with
    | some y, some ys => some (y :: ys)
    | _, _ => none

/-! ## SymbolNormalizer (src/utils/data_processor.py) -/

/-- The `variations` list of `DataProcessor.normalize_symbol`
(src/utils/data_processor.py lines 18-25), in source order, including the
bare `'USD'` entry. -/
def normVariations : List (List Char) :=
  [lc "/USDT:USDT", lc ":USDT", lc "/USDT", lc "-USDT", lc "USDT",
   lc "-SWAP", lc "-USD", lc "/USD", lc "USD"]

/-- The `variations` list of `DataProcessor.extract_price_multiplier`
(src/utils/data_processor.py lines 77-84): the same list except that the
bare `'USD'` entry is absent. -/
def extVariations : List (List Char) :=
  [lc "/USDT:USDT", lc ":USDT", lc "/USDT", lc "-USDT", lc "USDT",
   lc "-SWAP", lc "-USD", lc "/USD"]

/-- Apply `cleaned = cleaned.replace(variation, '')` over a list of variations
in order. -/
def cleanWith (vars : List (List Char)) (s : List Char) : List Char :=
  vars.foldl (fun acc p => removeAll p acc) s

/-- The cleaning phase of `normalize_symbol`. -/
def cleanNorm (s : List Char) : List Char := cleanWith normVariations s

/-- The cleaning phase of `extract_price_multiplier`. -/
def cleanExt (s : List Char) : List Char := cleanWith extVariations s

/-- The rename-table fallthrough of `normalize_symbol`
(`for key, value in symbol_mappings.items(): if key in cleaned: return value`). -/
def normTail (c : List Char) : List Char :=
  if containsSub (lc "SOLAYER") c then lc "LAYER"
  else if containsSub (lc "TRUMPOFFICIAL") c then lc "TRUMP"
  else c

/-- The branch structure of `normalize_symbol` after cleaning
(src/utils/data_processor.py lines 29-60). -/
def normCore (c : List Char) : List Char :=
  if (lc "1000000").isPrefixOf c then c.drop 7
  else if (lc "1M").isPrefixOf c then c.drop 2
  else if (lc "1000").isPrefixOf c then c.drop 4
  else if (lc "k").isPrefixOf c && decide (1 < c.length) && secondUpper c then c.drop 1
  else if endsWithL (lc "1000") c then
    (if pyIsDigit (c.drop (c.length - 4)) then c.take (c.length - 4) else normTail c)
  else if endsWithL (lc "1M") c then c.take (c.length - 2)
  else if endsWithL (lc "1000000") c then c.take (c.length - 7)
  else normTail c

/-- `DataProcessor.normalize_symbol` (src/utils/data_processor.py lines 8-60). -/
def normalize_symbol (s : String) : String := ⟨normCore (cleanNorm s.data)⟩

/-- The branch structure of `extract_price_multiplier` after cleaning
(src/utils/data_processor.py lines 87-106). -/
def extractCore (c : List Char) : ℚ :=
  if (lc "1000000").isPrefixOf c then 1000000
  else if (lc "1000").isPrefixOf c then 1000
  else if (lc "1M").isPrefixOf c then 1000000
  else if (lc "k").isPrefixOf c && decide (1 < c.length) && secondUpper c then 1000
  else if endsWithL (lc "1000") c && pyIsDigit (c.drop (c.length - 4)) then 1000
  else if endsWithL (lc "1M") c then 1000000
  else if endsWithL (lc "1000000") c then 1000000
  else 1

/-- `DataProcessor.extract_price_multiplier` (src/utils/data_processor.py
lines 63-106). -/
def extract_price_multiplier (s : String) : ℚ := extractCore (cleanExt s.data)

/-- The multiplier implied by the branch `normCore` takes: 10^6 for the
`1000000`/`1M` prefix and suffix rules, 10^3 for the `1000` prefix, `k` prefix
and `1000` suffix rules, 1 when no multiplier rule fires. -/
def normMultOf (c : List Char) : ℚ :=
  if (lc "1000000").isPrefixOf c then 1000000
  else if (lc "1M").isPrefixOf c then 1000000
  else if (lc "1000").isPrefixOf c then 1000
  else if (lc "k").isPrefixOf c && decide (1 < c.length) && secondUpper c then 1000
  else if endsWithL (lc "1000") c then
    (if pyIsDigit (c.drop (c.length - 4)) then 1000 else 1)
  else if endsWithL (lc "1M") c then 1000000
  else if endsWithL (lc "1000000") c then 1000000
  else 1

/-! ## Positions and the dashboard aggregation (src/app.py `update_dashboard_data`) -/

/-- Position side; `get_positions` emits the strings `'long'`/`'short'`. -/
inductive Side where
  | long : Side
  | short : Side
deriving DecidableEq

/-- The Python expression `(1 if pos['side'].lower() == 'long' else -1)`. -/
def sideMult (s : Side) : ℚ := if s = Side.long then 1 else -1

/-- A canonical position record as produced by `ExchangeClient.get_positions`:
`symbol` is the normalized token, `raw_symbol` the exchange-native ticker. -/
structure PosIn where
  exchange : String
  symbol : String
  raw_symbol : String
  size : ℚ
  current_price : ℚ
  side : Side
  pnl : ℚ
deriving DecidableEq

/-- The `funding_intervals` dict of `update_dashboard_data`
(src/app.py lines 304-310) read through `.get(exchange, 8)`. -/
def intervalFor (ex : String) : ℚ :=
  if ex = "hyperliquid" then 1
  else if ex = "bybit" then 8
  else if ex = "binance" then 8
  else if ex = "okx" then 8
  else if ex = "rabbitx" then 1
  else 8

/-- Mean of a rate series, `funding_history['fundingRate'].mean()`. -/
def listMean (l : List ℚ) : ℚ := l.sum / l.length

/-- The funding PnL stored in `pos['funding_pnl']` by `update_dashboard_data`
(src/app.py lines 329-352): `0` when the fetched history is empty, otherwise
`position_value * avg_funding_rate * periods_in_timeframe * position_multiplier`.
`fetch ex sym` is the rate series returned by
`client.get_funding_rate_history(exchange, symbol, days)`. -/
def appFundingPnl (fetch : String → String → List ℚ) (days : ℚ) (ex : String)
    (p : PosIn) : ℚ :=
  let hist := fetch ex p.raw_symbol
  if hist.isEmpty then 0
  else
    |p.size * p.current_price| * listMean hist * (days * 24 / intervalFor ex) *
      sideMult p.side

/-- One token's entry of the `delta_exposure` dict built by
`update_dashboard_data` (src/app.py lines 360-373). -/
structure DEntry where
  total_delta : ℚ
  exchanges : List (String × ℚ)
  funding_pnl : ℚ
deriving DecidableEq

/-- The state accumulated by `update_dashboard_data` across the exchange loop;
`all_positions` keeps each position with the funding PnL stored into it. -/
structure DashState where
  all_positions : List (PosIn × ℚ)
  delta_exposure : List (String × DEntry)
  total_funding_pnl : ℚ
  total_position_value : ℚ
  total_pnl : ℚ
  total_delta : ℚ
deriving DecidableEq

/-- One step of the `delta_exposure` loop (src/app.py lines 360-373): init the
token entry if absent, then `total_delta += delta`,
`exchanges[exchange] = delta` (assignment, as in the source) and
`funding_pnl += pos['funding_pnl']`. -/
def deltaExposureStep (selected : List String) (ex : String)
    (dex : List (String × DEntry)) (pf : PosIn × ℚ) : List (String × DEntry) :=
  let delta := pf.1.size * pf.1.current_price * sideMult pf.1.side
  modifyA pf.1.symbol ⟨0, selected.map (fun e => (e, 0)), 0⟩
    (fun en =>
      ⟨en.total_delta + delta, setA ex delta en.exchanges,
        en.funding_pnl + pf.2⟩) dex

/-- `update_dashboard_data` (src/app.py lines 291-389) restricted to the data
the claims concern: the exchange loop that computes per-position funding PnL,
the aggregate totals and the per-token `delta_exposure` dict. `getPositions`
stands for `client.get_positions`, `fetch` for
`client.get_funding_rate_history`. -/
def update_dashboard_data (selected : List String)
    (getPositions : String → List PosIn)
    (fetch : String → String → List ℚ) (days : ℚ) : DashState :=
  selected.foldl
    (fun st ex =>
      let positions := (getPositions ex).map (fun p => { p with exchange := ex })
      let annotated := positions.map (fun p => (p, appFundingPnl fetch days ex p))
      let st :=
        { st with
          total_position_value := st.total_position_value +
            (positions.map (fun (p : PosIn) => |p.size * p.current_price|)).sum
          total_delta := st.total_delta +
            (positions.map (fun (p : PosIn) => p.size * p.current_price * sideMult p.side)).sum
          total_funding_pnl := st.total_funding_pnl + (annotated.map Prod.snd).sum
          total_pnl := st.total_pnl + (positions.map PosIn.pnl).sum
          all_positions := st.all_positions ++ annotated }
      { st with
        delta_exposure := annotated.foldl (deltaExposureStep selected ex)
          st.delta_exposure })
    ⟨[], [], 0, 0, 0, 0⟩

/-- Sum of the per-exchange deltas stored in a `DeltaExposure` entry. -/
def exchangesSum (e : DEntry) : ℚ := (e.exchanges.map Prod.snd).sum

/-! ## `ExchangeClient.calculate_funding_payments`
(src/utils/exchange_client.py lines 873-920) -/

/-- Python `suf in s`-style suffix test on `String`. -/
def pyEndsWith (suf s : String) : Bool := endsWithL suf.data s.data

/-- The per-exchange symbol formatting at the top of the
`calculate_funding_payments` loop: OKX symbols are forced into
`TOKEN-USDT-SWAP` form, all other exchanges use the raw symbol as is. -/
def cfpSymbol (ex : String) (raw : String) : String :=
  if ex = "okx" ∧ ¬(pyEndsWith "-USDT-SWAP" raw = true) then raw ++ "-USDT-SWAP"
  else raw

/-- `calculate_funding_payments`: for each position, fetch the rate history
for the formatted symbol; an empty history stores `float('nan')` (modelled as
`none`) as the explicit "NA" marker, otherwise the sum over the history of
`size * current_price * rate * (-1 if side == 'short' else 1)` is stored. -/
def calculate_funding_payments (fetch : String → String → List ℚ) (ex : String)
    (positions : List PosIn) : List (String × Option ℚ) :=
  positions.foldl
    (fun acc p =>
      let sym := cfpSymbol ex p.raw_symbol
      let rates := fetch ex sym
      if rates.isEmpty then setA sym none acc
      else
        setA sym
          (some (rates.foldl
            (fun total r =>
              total + p.size * p.current_price * r *
                (if p.side = Side.short then -1 else 1)) 0)) acc)
    []

/-! ## APY computations
(src/components/funding_rates_updated.py lines 304-318 and 347-358,
src/components/funding_rates.py lines 166-172) -/

/-- The 8h-basis normalization of `display_funding_rates`
(src/components/funding_rates_updated.py lines 304-309):
`raw_pnl / (8 / interval)` when the interval differs from 8h, else unchanged. -/
def normalized_funding_pnl (raw_pnl interval : ℚ) : ℚ :=
  if interval ≠ 8 then raw_pnl / (8 / interval) else raw_pnl

/-- The guarded APY of `funding_rates_updated.py` lines 312-318, applied to an
already-normalized funding PnL. -/
def funding_apy_updated (normalized notional_size days : ℚ) : ℚ :=
  if normalized ≠ 0 ∧ notional_size ≠ 0 then
    normalized / notional_size * ((365 * 24 / 8) / (days * 24 / 8)) * 100
  else 0

/-- The per-token APY of `funding_rates_updated.py`: normalize the raw funding
PnL to the 8h basis, then apply the guarded APY formula. -/
def fru_token_apy (raw_pnl interval notional_size days : ℚ) : ℚ :=
  funding_apy_updated (normalized_funding_pnl raw_pnl interval) notional_size days

/-- The APY of `funding_rates.py` lines 166-172. The funding PnL read from
`calculate_funding_payments` may be the NaN marker (`none`); Python's
`NaN != 0` is true, so the guard `if funding_pnl != 0` passes for it and the
division `funding_pnl / notional_size` raises `ZeroDivisionError` (modelled as
`Except.error`) when `notional_size` is zero, and produces NaN (`Except.ok
none`) otherwise. -/
def funding_apy_basic (funding_pnl : Option ℚ) (notional_size days : ℚ) :
    Except Unit (Option ℚ) :=
  match funding_pnl with
  | none =>
    if notional_size = 0 then Except.error ()
    else Except.ok none
  | some v =>
    if v ≠ 0 then
      if notional_size = 0 then Except.error ()
      else Except.ok (some (v / notional_size * (365 / days) * 100))
    else Except.ok (some 0)

/-! ## Cross-exchange arbitrage candidates (src/app.py lines 525-581) -/

/-- The per-exchange record stored into `positions_by_token` (src/app.py
lines 535-539). -/
structure ArbInfo where
  size : ℚ
  price : ℚ
  side : Side
deriving DecidableEq

/-- Build `positions_by_token`: a dict token → dict exchange → info, with
Python dict last-write-wins assignment semantics. -/
def buildByToken (ps : List PosIn) : List (String × List (String × ArbInfo)) :=
  ps.foldl
    (fun bt p =>
      modifyA p.symbol [] (setA p.exchange ⟨p.size, p.current_price, p.side⟩) bt)
    []

/-- The most recent funding rate used for the spread (src/app.py lines 557-571):
`0` before the try-block; a fetch failure is caught and leaves it `0`; an empty
frame leaves it `0`; otherwise `df.iloc[-1]['fundingRate']`. -/
def lastRate (fetchArb : String → String → Except Unit (List ℚ))
    (ex tok : String) : ℚ :=
  match fetchArb ex tok with
  | Except.error _ => 0
  | Except.ok rs => rs.getLastD 0

/-- One row of the `arb_opportunities` list. -/
structure Candidate where
  token : String
  exchange1 : String
  exchange2 : String
  price_spread_bps : ℚ
  funding_spread_bps : ℚ
deriving DecidableEq

/-- The candidate row the source computes for one exchange pair, written
closed-form (used to state what the loop produces). -/
def specCandidate (fetchArb : String → String → Except Unit (List ℚ))
    (tok e1 e2 : String) (p1 p2 : ℚ) : Candidate :=
  ⟨tok, e1, e2, |p1 - p2| / min p1 p2 * 10000,
    |lastRate fetchArb e1 tok - lastRate fetchArb e2 tok| * 10000⟩

/-- The body of the pair loop (src/app.py lines 548-581). The division
`price_spread / min(price1, price2)` raises `ZeroDivisionError` when the
minimum is zero (`none`); nothing else in the body can raise, the two rate
fetches being individually wrapped in try/except. -/
def mkCandidate (fetchArb : String → String → Except Unit (List ℚ))
    (tok e1 e2 : String) (p1 p2 : ℚ) : Option Candidate :=
  if min p1 p2 = 0 then none
  else some (specCandidate fetchArb tok e1 e2 p1 p2)

/-- The candidates contributed by one token: every unordered exchange pair
when the token is held on more than one exchange, nothing otherwise. -/
def arbForToken (fetchArb : String → String → Except Unit (List ℚ))
    (tok : String) (exd : List (String × ArbInfo)) : Option (List Candidate) :=
  if 1 < exd.length then
    listMapM
      (fun pr => mkCandidate fetchArb tok pr.1.1 pr.2.1 pr.1.2.price pr.2.2.price)
      (pairsLT exd)
  else some []

/-- The full `arb_opportunities` computation of `main` (src/app.py
lines 528-581): a raised `ZeroDivisionError` aborts the whole list. -/
def arb_opportunities (fetchArb : String → String → Except Unit (List ℚ))
    (ps : List PosIn) : Option (List Candidate) :=
  (listMapM (fun t => arbForToken fetchArb t.1 t.2) (buildByToken ps)).map
    List.flatten

/-- Closed form of the candidate list: tokens held on more than one exchange,
each contributing its unordered pairs in loop order. -/
def specCandidates (fetchArb : String → String → Except Unit (List ℚ))
    (bt : List (String × List (String × ArbInfo))) : List Candidate :=
  (bt.filter (fun t => decide (1 < t.2.length))).flatMap
    (fun t =>
      (pairsLT t.2).map
        (fun pr => specCandidate fetchArb t.1 pr.1.1 pr.2.1 pr.1.2.price pr.2.2.price))

/-! ## The spec-side funding formula and concrete inputs used as evidence -/

/-- The funding-PnL formula of spec §4.3, written from the spec's words:
`funding_pnl = notional_value * avg_rate * periods_in_window * position_multiplier`.
Stated separately so the pipeline's computation can be compared against it. -/
def specFundingPnl (notional_value avg_rate periods mult : ℚ) : ℚ :=
  notional_value * avg_rate * periods * mult

/-- Two bybit positions that normalize to the same token (distinct raw
symbols, one canonical symbol). -/
def dupPosA : PosIn := ⟨"", "PEPE", "1000PEPEUSDT", 100, 1, Side.long, 0⟩

/-- Second position of the duplicate-token pair. -/
def dupPosB : PosIn := ⟨"", "PEPE", "PEPE1000USD", 200, 1, Side.long, 0⟩

/-- A `get_positions` collaborator returning the duplicate-token pair on
bybit. -/
def getPosDup : String → List PosIn :=
  fun ex => if ex = "bybit" then [dupPosA, dupPosB] else []

/-- A funding-history collaborator that always returns the empty frame. -/
def emptyFetch : String → String → List ℚ := fun _ _ => []

/-- A position whose funding-history fetch returns the empty frame. -/
def posNoHist : PosIn := ⟨"bybit", "BTC", "BTCA", 1, 100, Side.long, 0⟩

/-- A position whose funding history is present but entirely zero rates. -/
def posZeroHist : PosIn := ⟨"bybit", "BTC", "BTCB", 1, 100, Side.long, 0⟩

/-- A funding-history collaborator: empty frame for `BTCA`, two zero-rate
points for every other symbol. -/
def fetchSplit : String → String → List ℚ :=
  fun _ sym => if sym = "BTCA" then [] else [0, 0]

/-- The spec §8 scenario position: long BTC, notional 10000. -/
def posBTCLong : PosIn :=
  ⟨"bybit", "BTC", "BTCUSDT", 1 / 10, 100000, Side.long, 0⟩

/-- The spec §8 scenario funding history: constant rate 0.0001. -/
def fetchRate1bp : String → String → List ℚ := fun _ _ => [1 / 10000]

/-- BTC held on binance at 100000. -/
def posArbBinance : PosIn := ⟨"binance", "BTC", "BTCUSDT", 1, 100000, Side.long, 0⟩

/-- BTC held on bybit at 100050. -/
def posArbBybit : PosIn := ⟨"bybit", "BTC", "BTCUSDT", 1, 100050, Side.short, 0⟩

/-- An arbitrage-loop rate fetch that always succeeds with an empty frame. -/
def fetchArbEmpty : String → String → Except Unit (List ℚ) :=
  fun _ _ => Except.ok []

/-- A BTC position whose current price is 0. -/
def posZeroPrice : PosIn := ⟨"binance", "BTC", "BTCUSDT", 1, 0, Side.long, 0⟩

/-- An arbitrage-loop rate fetch that raises on binance and returns the
single rate 0.0005 elsewhere. -/
def fetchArbFail : String → String → Except Unit (List ℚ) :=
  fun ex _ => if ex = "binance" then Except.error () else Except.ok [1 / 2000]

/-- BTC on binance at 100 (for the failure-spread scenario). -/
def posArbP100 : PosIn := ⟨"binance", "BTC", "BTCUSDT", 1, 100, Side.long, 0⟩

/-- BTC on bybit at 101 (for the failure-spread scenario). -/
def posArbP101 : PosIn := ⟨"bybit", "BTC", "BTCUSDT", 1, 101, Side.short, 0⟩

/-! ## Lemmas about the string helpers -/

lemma removeAllF_congr (pat : List Char) :
    ∀ f₁ f₂ s, s.length ≤ f₁ → s.length ≤ f₂ →
      removeAllF pat f₁ s = removeAllF pat f₂ s := by
  intro f₁
  induction f₁ with
  | zero =>
    intro f₂ s h1 _
    cases s with
    | nil => cases f₂ <;> rfl
    | cons c t => simp at h1
  | succ n ih =>
    intro f₂ s h1 h2
    cases s with
    | nil => cases f₂ <;> rfl
    | cons c t =>
      cases f₂ with
      | zero => simp at h2
      | succ m =>
        simp only [removeAllF]
        by_cases hc : pat.isPrefixOf (c :: t) ∧ pat.length ≠ 0
        · rw [if_pos hc, if_pos hc]
          apply ih
          · simp only [List.length_drop]
            simp only [List.length_cons] at h1
            omega
          · simp only [List.length_drop]
            simp only [List.length_cons] at h2
            omega
        · rw [if_neg hc, if_neg hc]
          congr 1
          apply ih
          · simp only [List.length_cons] at h1; omega
          · simp only [List.length_cons] at h2; omega

lemma removeAll_cons (pat : List Char) (c : Char) (rest : List Char) :
    removeAll pat (c :: rest) =
      if pat.isPrefixOf (c :: rest) ∧ pat.length ≠ 0 then
        removeAll pat (List.drop (pat.length - 1) rest)
      else c :: removeAll pat rest := by
  show removeAllF pat (rest.length + 1) (c :: rest) = _
  simp only [removeAllF]
  by_cases hc : pat.isPrefixOf (c :: rest) ∧ pat.length ≠ 0
  · rw [if_pos hc, if_pos hc]
    exact removeAllF_congr pat _ _ _ (by simp only [List.length_drop]; omega) le_rfl
  · rw [if_neg hc, if_neg hc]
    rfl

lemma removeAllF_length_le (pat : List Char) :
    ∀ f s, (removeAllF pat f s).length ≤ s.length := by
  intro f
  induction f with
  | zero => intro s; cases s <;> simp [removeAllF]
  | succ n ih =>
    intro s
    cases s with
    | nil => simp [removeAllF]
    | cons c t =>
      simp only [removeAllF]
      split
      · refine le_trans (ih _) ?_
        simp only [List.length_drop, List.length_cons]
        omega
      · simp only [List.length_cons, Nat.add_le_add_iff_right]
        exact ih t

lemma removeAll_length_le (pat s : List Char) :
    (removeAll pat s).length ≤ s.length :=
  removeAllF_length_le pat s.length s

lemma removeAllF_of_not_contains (pat : List Char) :
    ∀ f s, containsSub pat s = false → removeAllF pat f s = s := by
  intro f
  induction f with
  | zero => intro s _; cases s <;> rfl
  | succ n ih =>
    intro s h
    cases s with
    | nil => rfl
    | cons c t =>
      simp only [containsSub, Bool.or_eq_false_iff] at h
      simp only [removeAllF]
      rw [if_neg (by simp [h.1])]
      rw [ih t h.2]

lemma removeAll_of_not_contains (pat s : List Char)
    (h : containsSub pat s = false) : removeAll pat s = s :=
  removeAllF_of_not_contains pat s.length s h

lemma cleanWith_length_le (vars : List (List Char)) :
    ∀ s, (cleanWith vars s).length ≤ s.length := by
  induction vars with
  | nil => intro s; exact le_rfl
  | cons p ps ih =>
    intro s
    show (cleanWith ps (removeAll p s)).length ≤ s.length
    exact le_trans (ih _) (removeAll_length_le p s)

lemma cleanWith_of_not_contains (vars : List (List Char)) :
    ∀ s, (∀ p ∈ vars, containsSub p s = false) → cleanWith vars s = s := by
  induction vars with
  | nil => intro s _; rfl
  | cons p ps ih =>
    intro s h
    show cleanWith ps (removeAll p s) = s
    rw [removeAll_of_not_contains p s (h p (by simp))]
    exact ih s fun q hq => h q (by simp [hq])

lemma isPrefixOf_iff : ∀ l₁ l₂ : List Char,
    l₁.isPrefixOf l₂ = true ↔ ∃ t, l₂ = l₁ ++ t := by
  intro l₁
  induction l₁ with
  | nil =>
    intro l₂
    simp only [List.isPrefixOf, List.nil_append, true_iff]
    exact ⟨l₂, rfl⟩
  | cons a as ih =>
    intro l₂
    cases l₂ with
    | nil => simp [List.isPrefixOf]
    | cons b bs =>
      simp only [List.isPrefixOf, Bool.and_eq_true, beq_iff_eq, ih,
        List.cons_append]
      constructor
      · rintro ⟨rfl, t, rfl⟩
        exact ⟨t, rfl⟩
      · rintro ⟨t, ht⟩
        obtain ⟨h1, h2⟩ := List.cons.inj ht
        exact ⟨h1.symm, t, h2⟩

lemma endsWithL_iff (suf s : List Char) :
    endsWithL suf s = true ↔ ∃ t, s = t ++ suf := by
  unfold endsWithL
  rw [isPrefixOf_iff]
  constructor
  · rintro ⟨t, ht⟩
    refine ⟨t.reverse, ?_⟩
    have h2 := congrArg List.reverse ht
    simpa [List.reverse_append] using h2
  · rintro ⟨t, rfl⟩
    exact ⟨t.reverse, by simp [List.reverse_append]⟩

/-! ## Consistency of `extract_price_multiplier` with `normalize_symbol` -/

lemma not_pre_1M_and_1000 (c : List Char)
    (hM : (lc "1M").isPrefixOf c = true)
    (hB : (lc "1000").isPrefixOf c = true) : False := by
  obtain ⟨t1, h1⟩ := (isPrefixOf_iff _ _).mp hM
  obtain ⟨t2, h2⟩ := (isPrefixOf_iff _ _).mp hB
  rw [h1] at h2
  simp [lc] at h2

lemma endsWith1000_digits (c : List Char)
    (h : endsWithL (lc "1000") c = true) :
    pyIsDigit (c.drop (c.length - 4)) = true := by
  obtain ⟨t, rfl⟩ := (endsWithL_iff _ _).mp h
  have hlen : (t ++ lc "1000").length - 4 = t.length := by
    simp [lc]
  rw [hlen]
  rw [show List.drop t.length (t ++ lc "1000") = lc "1000" from
    List.drop_left t (lc "1000")]
  decide

lemma extractCore_eq_normMultOf (c : List Char) :
    extractCore c = normMultOf c := by
  unfold extractCore normMultOf
  by_cases hA : (lc "1000000").isPrefixOf c = true
  · simp [hA]
  · simp only [hA, if_false, Bool.false_eq_true]
    by_cases hB : (lc "1000").isPrefixOf c = true
    · have hM : ((lc "1M").isPrefixOf c) = false := by
        cases hMeq : (lc "1M").isPrefixOf c
        · rfl
        · exact absurd (not_pre_1M_and_1000 c hMeq hB) not_false
      simp [hB, hM]
    · by_cases hM : (lc "1M").isPrefixOf c = true
      · simp [hB, hM]
      · simp only [hB, hM, if_false, Bool.false_eq_true]
        by_cases hK : ((lc "k").isPrefixOf c && decide (1 < c.length) &&
            secondUpper c) = true
        · simp [hK]
        · simp only [hK, if_false, Bool.false_eq_true]
          by_cases hS : endsWithL (lc "1000") c = true
          · have hD := endsWith1000_digits c hS
            simp [hS, hD]
          · simp [hS]

lemma normCore_length_lt (c : List Char) (h : normMultOf c ≠ 1) :
    (normCore c).length < c.length := by
  unfold normMultOf at h
  unfold normCore
  by_cases hA : (lc "1000000").isPrefixOf c = true
  · obtain ⟨t, rfl⟩ := (isPrefixOf_iff _ _).mp hA
    simp [hA, lc]
    omega
  · simp only [hA, if_false, Bool.false_eq_true] at h ⊢
    by_cases hM : (lc "1M").isPrefixOf c = true
    · obtain ⟨t, rfl⟩ := (isPrefixOf_iff _ _).mp hM
      simp [hM, lc]
      omega
    · simp only [hM, if_false, Bool.false_eq_true] at h ⊢
      by_cases hB : (lc "1000").isPrefixOf c = true
      · obtain ⟨t, rfl⟩ := (isPrefixOf_iff _ _).mp hB
        simp [hB, lc]
        omega
      · simp only [hB, if_false, Bool.false_eq_true] at h ⊢
        by_cases hK : ((lc "k").isPrefixOf c && decide (1 < c.length) &&
            secondUpper c) = true
        · have hlen : 1 < c.length := by
            have := hK
            simp only [Bool.and_eq_true, decide_eq_true_eq] at this
            exact this.1.2
          simp [hK, List.length_drop]
          omega
        · simp only [hK, if_false, Bool.false_eq_true] at h ⊢
          by_cases hS : endsWithL (lc "1000") c = true
          · have hD := endsWith1000_digits c hS
            obtain ⟨t, hts⟩ := (endsWithL_iff _ _).mp hS
            simp only [hS, if_true, hD] at h ⊢
            subst hts
            simp [lc, List.length_take]
          · simp only [hS, if_false, Bool.false_eq_true] at h ⊢
            by_cases hSM : endsWithL (lc "1M") c = true
            · obtain ⟨t, hts⟩ := (endsWithL_iff _ _).mp hSM
              simp only [hSM, if_true] at h ⊢
              subst hts
              simp [lc, List.length_take]
            · simp only [hSM, if_false, Bool.false_eq_true] at h ⊢
              by_cases hS7 : endsWithL (lc "1000000") c = true
              · obtain ⟨t, hts⟩ := (endsWithL_iff _ _).mp hS7
                simp only [hS7, if_true] at h ⊢
                subst hts
                simp [lc, List.length_take]
              · simp only [hS7, if_false, Bool.false_eq_true] at h
                exact absurd rfl h

/-! ## Lemmas about the arbitrage-candidate loop -/

lemma listMapM_eq_map {α β : Type} (f : α → Option β) (g : α → β) :
    ∀ l : List α, (∀ x ∈ l, f x = some (g x)) →
      listMapM f l = some (l.map g) := by
  intro l
  induction l with
  | nil => intro _; rfl
  | cons x xs ih =>
    intro h
    simp only [listMapM, h x (by simp), ih fun y hy => h y (by simp [hy]),
      List.map_cons]

lemma pairsLT_mem {α : Type} :
    ∀ (l : List α) (p : α × α), p ∈ pairsLT l → p.1 ∈ l ∧ p.2 ∈ l := by
  intro l
  induction l with
  | nil => intro p hp; simp [pairsLT] at hp
  | cons x xs ih =>
    intro p hp
    simp only [pairsLT, List.mem_append, List.mem_map] at hp
    rcases hp with ⟨y, hy, rfl⟩ | hp
    · exact ⟨by simp, by simp [hy]⟩
    · exact ⟨by simp [(ih p hp).1], by simp [(ih p hp).2]⟩

lemma setA_forall {β : Type} (P : String × β → Prop) (k : String) (v : β) :
    ∀ l, (∀ x ∈ l, P x) → P (k, v) → ∀ x ∈ setA k v l, P x := by
  intro l
  induction l with
  | nil => intro _ hkv x hx; simp [setA] at hx; subst hx; exact hkv
  | cons y ys ih =>
    intro hl hkv x hx
    obtain ⟨k', v'⟩ := y
    simp only [setA] at hx
    by_cases hk : k' = k
    · rw [if_pos hk] at hx
      rcases List.mem_cons.mp hx with rfl | hx
      · exact hkv
      · exact hl x (by simp [hx])
    · rw [if_neg hk] at hx
      rcases List.mem_cons.mp hx with rfl | hx
      · exact hl _ (by simp)
      · exact ih (fun z hz => hl z (by simp [hz])) hkv x hx

lemma modifyA_forall {β : Type} (P : String × β → Prop) (k : String) (dflt : β)
    (f : β → β) :
    ∀ l, (∀ x ∈ l, P x) → (∀ a b, P (a, b) → P (a, f b)) → P (k, f dflt) →
      ∀ x ∈ modifyA k dflt f l, P x := by
  intro l
  induction l with
  | nil => intro _ _ hkd x hx; simp [modifyA] at hx; subst hx; exact hkd
  | cons y ys ih =>
    intro hl hstep hkd x hx
    obtain ⟨k', v'⟩ := y
    simp only [modifyA] at hx
    by_cases hk : k' = k
    · rw [if_pos hk] at hx
      rcases List.mem_cons.mp hx with rfl | hx
      · subst hk
        exact hstep k' v' (hl _ (by simp))
      · exact hl x (by simp [hx])
    · rw [if_neg hk] at hx
      rcases List.mem_cons.mp hx with rfl | hx
      · exact hl _ (by simp)
      · exact ih (fun z hz => hl z (by simp [hz])) hstep hkd x hx

lemma buildByToken_prices_pos :
    ∀ (ps : List PosIn) (acc : List (String × List (String × ArbInfo))),
      (∀ p ∈ ps, 0 < p.current_price) →
      (∀ t ∈ acc, ∀ e ∈ t.2, 0 < e.2.price) →
      ∀ t ∈ ps.foldl
          (fun bt p =>
            modifyA p.symbol [] (setA p.exchange ⟨p.size, p.current_price, p.side⟩) bt)
          acc,
        ∀ e ∈ t.2, 0 < e.2.price := by
  intro ps
  induction ps with
  | nil => intro acc _ hacc t ht; exact hacc t ht
  | cons p ps ih =>
    intro acc hps hacc
    simp only [List.foldl_cons]
    apply ih
    · exact fun q hq => hps q (by simp [hq])
    · intro t ht
      refine modifyA_forall (fun t => ∀ e ∈ t.2, 0 < e.2.price) p.symbol []
        (setA p.exchange ⟨p.size, p.current_price, p.side⟩) acc hacc ?_ ?_ t ht
      · intro a b hb
        refine setA_forall (fun (e : String × ArbInfo) => 0 < e.2.price)
          p.exchange _ b hb ?_
        exact hps p (by simp)
      · refine setA_forall (fun (e : String × ArbInfo) => 0 < e.2.price)
          p.exchange _ [] (by simp) ?_
        exact hps p (by simp)

lemma arbForToken_eq (f : String → String → Except Unit (List ℚ))
    (tok : String) (exd : List (String × ArbInfo))
    (hpos : ∀ e ∈ exd, 0 < e.2.price) :
    arbForToken f tok exd =
      some (if 1 < exd.length then
        (pairsLT exd).map
          (fun pr => specCandidate f tok pr.1.1 pr.2.1 pr.1.2.price pr.2.2.price)
      else []) := by
  unfold arbForToken
  by_cases h : 1 < exd.length
  · rw [if_pos h, if_pos h]
    apply listMapM_eq_map
    intro pr hpr
    obtain ⟨h1, h2⟩ := pairsLT_mem exd pr hpr
    unfold mkCandidate
    rw [if_neg]
    exact ne_of_gt (lt_min (hpos _ h1) (hpos _ h2))
  · rw [if_neg h, if_neg h]

lemma flatten_map_ite {α β : Type} (c : α → Prop) [DecidablePred c]
    (h : α → List β) :
    ∀ l : List α,
      (l.map (fun t => if c t then h t else [])).flatten =
        (l.filter (fun t => decide (c t))).flatMap h := by
  intro l
  induction l with
  | nil => rfl
  | cons x xs ih => by_cases hx : c x <;> simp [hx, ih]

lemma arb_opportunities_eq (f : String → String → Except Unit (List ℚ))
    (ps : List PosIn) (hpos : ∀ p ∈ ps, 0 < p.current_price) :
    arb_opportunities f ps = some (specCandidates f (buildByToken ps)) := by
  unfold arb_opportunities specCandidates
  have hbt : ∀ t ∈ buildByToken ps, ∀ e ∈ t.2, 0 < e.2.price :=
    buildByToken_prices_pos ps [] hpos (by simp)
  rw [listMapM_eq_map _
    (fun t => if 1 < t.2.length then
      (pairsLT t.2).map
        (fun pr => specCandidate f t.1 pr.1.1 pr.2.1 pr.1.2.price pr.2.2.price)
    else [])
    _ (fun t ht => arbForToken_eq f t.1 t.2 (hbt t ht))]
  simp only [Option.map_some']
  congr 1
  exact flatten_map_ite (fun t => 1 < t.2.length) _ (buildByToken ps)

lemma spec_tokens_iff (f : String → String → Except Unit (List ℚ))
    (bt : List (String × List (String × ArbInfo))) (tok : String) :
    (∃ e ∈ bt, e.1 = tok ∧ 2 ≤ e.2.length) ↔
      ∃ c ∈ specCandidates f bt, c.token = tok := by
  constructor
  · rintro ⟨e, he, htok, hlen⟩
    obtain ⟨k, exd⟩ := e
    match exd, hlen with
    | a :: b :: t, _ =>
      refine ⟨specCandidate f k a.1 b.1 a.2.price b.2.price, ?_, htok⟩
      unfold specCandidates
      rw [List.mem_flatMap]
      refine ⟨(k, a :: b :: t), ?_, ?_⟩
      · rw [List.mem_filter]
        exact ⟨he, by simp⟩
      · simp only [pairsLT, List.map_append, List.mem_append, List.map_map,
          List.mem_map]
        left
        exact ⟨b, by simp, rfl⟩
  · rintro ⟨c, hc, htok⟩
    unfold specCandidates at hc
    rw [List.mem_flatMap] at hc
    obtain ⟨e, hef, hcm⟩ := hc
    rw [List.mem_filter] at hef
    obtain ⟨he, hlen⟩ := hef
    rw [List.mem_map] at hcm
    obtain ⟨pr, _, rfl⟩ := hcm
    refine ⟨e, he, htok, ?_⟩
    simp only [decide_eq_true_eq] at hlen
    omega

/-! ## Claim theorems -/

/-- Unfolding equation for `normalize_symbol`, stated once so later proofs
need not re-run the unification. -/
lemma normalize_symbol_eq_mk (s : String) :
    normalize_symbol s = ⟨normCore (cleanNorm s.data)⟩ := rfl

/-- Projection of the `String` constructor. -/
lemma data_mk (l : List Char) : (⟨l⟩ : String).data = l := rfl

/-- C2 (amended): `normalize_symbol` and `extract_price_multiplier` run the
same multiplier-matching rules but on differently cleaned strings —
`normalize_symbol` additionally strips bare `USD`. On every input on which the
two cleaning phases coincide (in particular every symbol not containing
`USD`), the two functions are consistent: `extract_price_multiplier` returns
exactly the multiplier of the branch `normalize_symbol` takes, and a
multiplier other than 1.0 forces `normalize_symbol` to change the string. -/
theorem claim_C2_consistency (s : String)
    (h : cleanNorm s.data = cleanExt s.data) :
    extract_price_multiplier s = normMultOf (cleanNorm s.data) ∧
      (extract_price_multiplier s ≠ 1 → normalize_symbol s ≠ s) := by
  have h1 : extract_price_multiplier s = normMultOf (cleanNorm s.data) := by
    unfold extract_price_multiplier
    rw [← h, extractCore_eq_normMultOf]
  refine ⟨h1, fun hne heq => ?_⟩
  have hmul : normMultOf (cleanNorm s.data) ≠ 1 := by rw [← h1]; exact hne
  have hlt := normCore_length_lt _ hmul
  have hle : (cleanNorm s.data).length ≤ s.data.length :=
    cleanWith_length_le normVariations s.data
  rw [normalize_symbol_eq_mk] at heq
  have hdata := congrArg String.data heq
  rw [data_mk] at hdata
  rw [hdata] at hlt
  omega

/-- Witness for C2 at the concrete input `1000PEPE`. -/
theorem claim_C2_witness :
    cleanNorm "1000PEPE".data = cleanExt "1000PEPE".data ∧
      (extract_price_multiplier "1000PEPE" = normMultOf (cleanNorm "1000PEPE".data) ∧
        (extract_price_multiplier "1000PEPE" ≠ 1 →
          normalize_symbol "1000PEPE" ≠ "1000PEPE")) :=
  ⟨by decide, claim_C2_consistency "1000PEPE" (by decide)⟩

/-- C2 counterexample: on `TOSHI1000USD`, `normalize_symbol` strips the
RabbitX `1000` suffix (after its bare-`USD` cleaning) and returns `TOSHI`, so
the multiplier of the branch it takes is 1000, yet `extract_price_multiplier`
— whose cleaning keeps the `USD` — matches no rule and returns 1.0. -/
theorem claim_C2_counterexample :
    normalize_symbol "TOSHI1000USD" = "TOSHI" ∧
      normMultOf (cleanNorm "TOSHI1000USD".data) = 1000 ∧
      extract_price_multiplier "TOSHI1000USD" = 1 := by
  refine ⟨by decide, by decide, by decide⟩

/-- C9 (amended): step 1 replaces each listed variation at every occurrence
anywhere in the string (sequentially, in the listed order), and the bare `USD`
entry likewise strips anywhere, not only when trailing; a symbol containing
none of the variation substrings is left unchanged by this step, while a
symbol whose base token contains one of them internally is altered. -/
theorem claim_C9_cleaning :
    (∀ s : List Char, (∀ p ∈ normVariations, containsSub p s = false) →
        cleanNorm s = s) ∧
      cleanNorm (lc "AUSDTB") = lc "AB" ∧
      cleanNorm (lc "SUSDE") = lc "SE" ∧
      cleanNorm (lc "PEPE/USDT:USDT") = lc "PEPE" :=
  ⟨fun s h => cleanWith_of_not_contains normVariations s h,
    by decide, by decide, by decide⟩

/-- Witness for C9 at the concrete input `BTC`. -/
theorem claim_C9_witness :
    (∀ p ∈ normVariations, containsSub p (lc "BTC") = false) ∧
      cleanNorm (lc "BTC") = lc "BTC" :=
  ⟨by decide, claim_C9_cleaning.1 (lc "BTC") (by decide)⟩

/-- C9 counterexample: `SUSDE` contains `USD` internally (not trailing), yet
step 1 alters it to `SE`, contradicting the claim that such symbols pass
through this step unchanged. -/
theorem claim_C9_counterexample :
    cleanNorm (lc "SUSDE") = lc "SE" ∧ lc "SE" ≠ lc "SUSDE" := by decide

/-- C10: `extract_price_multiplier` is a total function (the embedding is a
Lean function, and no branch of the source can raise: every index and slice
is guarded), and its value on every input is exactly one of 1.0, 1000.0,
1000000.0, with 1.0 for every unrecognized format. -/
theorem claim_C10_range (s : String) :
    extract_price_multiplier s = 1 ∨ extract_price_multiplier s = 1000 ∨
      extract_price_multiplier s = 1000000 := by
  unfold extract_price_multiplier extractCore
  split_ifs <;> norm_num

/-- C5: for every position whose funding-history fetch is non-empty, the
funding PnL recorded by `update_dashboard_data` equals the spec formula
`notional_value * avg_rate * periods_in_window * position_multiplier` with
`periods_in_window = days * 24 / interval_hours`, `avg_rate` the mean of the
history and multiplier `+1`/`-1` for long/short; and on the spec §8 scenario
(long, notional 10000, rate 0.0001, 8h interval, 7-day window) the periods are
21 and the funding PnL is 21.0. -/
theorem claim_C5_formula :
    (∀ (fetch : String → String → List ℚ) (days : ℚ) (ex : String) (p : PosIn),
        fetch ex p.raw_symbol ≠ [] →
          appFundingPnl fetch days ex p =
            specFundingPnl |p.size * p.current_price|
              (listMean (fetch ex p.raw_symbol)) (days * 24 / intervalFor ex)
              (sideMult p.side)) ∧
      ((7 : ℚ) * 24 / intervalFor "bybit" = 21 ∧
        appFundingPnl fetchRate1bp 7 "bybit" posBTCLong = 21) := by
  refine ⟨?_, ?_, ?_⟩
  · intro fetch days ex p h
    unfold appFundingPnl specFundingPnl
    cases hl : fetch ex p.raw_symbol with
    | nil => exact absurd hl h
    | cons a t => simp [hl]
  · rw [show intervalFor "bybit" = 8 from rfl]
    norm_num
  · simp [appFundingPnl, fetchRate1bp, posBTCLong, listMean, intervalFor, sideMult]
    norm_num

/-- Witness for C5 at the spec §8 scenario. -/
theorem claim_C5_witness :
    fetchRate1bp "bybit" posBTCLong.raw_symbol ≠ [] ∧
      appFundingPnl fetchRate1bp 7 "bybit" posBTCLong =
        specFundingPnl |posBTCLong.size * posBTCLong.current_price|
          (listMean (fetchRate1bp "bybit" posBTCLong.raw_symbol))
          (7 * 24 / intervalFor "bybit") (sideMult posBTCLong.side) :=
  ⟨by simp [fetchRate1bp], claim_C5_formula.1 fetchRate1bp 7 "bybit" posBTCLong
    (by simp [fetchRate1bp])⟩

/-- C3 (amended): the two funding-PnL code paths mark an empty funding history
differently. `calculate_funding_payments` stores `float('nan')` — an explicit
"NA" marker distinguishable from a computed zero — but `update_dashboard_data`
stores the plain number `0`, which is indistinguishable from a computed zero. -/
theorem claim_C3_markers :
    (∀ (fetch : String → String → List ℚ) (ex : String) (p : PosIn),
        fetch ex (cfpSymbol ex p.raw_symbol) = [] →
          lookupA (cfpSymbol ex p.raw_symbol)
            (calculate_funding_payments fetch ex [p]) = some none) ∧
      (∀ (fetch : String → String → List ℚ) (days : ℚ) (ex : String) (p : PosIn),
        fetch ex p.raw_symbol = [] → appFundingPnl fetch days ex p = 0) := by
  constructor
  · intro fetch ex p h
    unfold calculate_funding_payments
    simp [h, setA, lookupA]
  · intro fetch days ex p h
    unfold appFundingPnl
    simp [h]

/-- Witness for C3 at a concrete empty-history position. -/
theorem claim_C3_witness :
    fetchSplit "bybit" (cfpSymbol "bybit" posNoHist.raw_symbol) = [] ∧
      lookupA (cfpSymbol "bybit" posNoHist.raw_symbol)
        (calculate_funding_payments fetchSplit "bybit" [posNoHist]) = some none ∧
      appFundingPnl fetchSplit 7 "bybit" posNoHist = 0 :=
  ⟨by simp [fetchSplit, cfpSymbol, pyEndsWith, posNoHist],
    claim_C3_markers.1 fetchSplit "bybit" posNoHist
      (by simp [fetchSplit, cfpSymbol, pyEndsWith, posNoHist]),
    claim_C3_markers.2 fetchSplit 7 "bybit" posNoHist
      (by simp [fetchSplit, posNoHist])⟩

/-- C3 counterexample: in the `update_dashboard_data` path a position with an
empty funding history records the funding PnL `0` — the very same value a
position with a present, all-zero-rate history records — so that path's
"marker" is not distinguishable from a computed zero. -/
theorem claim_C3_counterexample :
    appFundingPnl fetchSplit 7 "bybit" posNoHist = 0 ∧
      appFundingPnl fetchSplit 7 "bybit" posZeroHist = 0 := by
  constructor
  · simp [appFundingPnl, fetchSplit, posNoHist]
  · simp [appFundingPnl, fetchSplit, posZeroHist, listMean, intervalFor, sideMult]

/-- C1: evaluation of `update_dashboard_data` at an input where one exchange
holds two positions normalizing to the same token. The per-token
`total_delta` accumulates both deltas (300), but the per-exchange entry is
overwritten by assignment (`exchanges[exchange] = delta`, src/app.py line 372)
and keeps only the last delta (200), so the sum of the stored exchange deltas
does not equal the stored `total_delta`. -/
theorem claim_C1_divergence :
    (update_dashboard_data ["bybit"] getPosDup emptyFetch 7).delta_exposure =
      [("PEPE", ⟨300, [("bybit", 200)], 0⟩)] ∧
      exchangesSum ⟨300, [("bybit", 200)], 0⟩ = 200 ∧ (200 : ℚ) ≠ 300 := by
  refine ⟨?_, ?_, by norm_num⟩
  · simp [update_dashboard_data, getPosDup, dupPosA, dupPosB, emptyFetch,
      appFundingPnl, deltaExposureStep, modifyA, setA, sideMult, listMean]
    norm_num
  · simp [exchangesSum]

/-- C6: the 8h-basis normalization is `raw_pnl / (8 / interval)` — `raw / 8`
at a 1h interval, unchanged at 8h — and every APY calculation uses the
normalized figure: `funding_rates_updated.py` applies `funding_apy_updated` to
`normalized_funding_pnl` by construction (`fru_token_apy`), and the APY of
`funding_rates.py` — whose selectable exchanges are bybit and binance, both on
the native 8h interval — computes exactly the normalized-figure APY at
interval 8 whenever its funding payment is a finite value (the payment being
zero whenever the notional is zero, as both are built from the same
`size * current_price`). -/
theorem claim_C6_normalization :
    (∀ raw : ℚ, normalized_funding_pnl raw 1 = raw / 8) ∧
      (∀ raw : ℚ, normalized_funding_pnl raw 8 = raw) ∧
      (∀ raw interval notional days : ℚ,
        fru_token_apy raw interval notional days =
          funding_apy_updated (normalized_funding_pnl raw interval) notional days) ∧
      (∀ v notional days : ℚ, v = 0 ∨ notional ≠ 0 →
        funding_apy_basic (some v) notional days =
          Except.ok (some (fru_token_apy v 8 notional days))) := by
  refine ⟨?_, ?_, fun _ _ _ _ => rfl, ?_⟩
  · intro raw
    unfold normalized_funding_pnl
    norm_num
  · intro raw
    unfold normalized_funding_pnl
    norm_num
  · intro v notional days h
    unfold funding_apy_basic fru_token_apy funding_apy_updated normalized_funding_pnl
    rw [if_neg (by norm_num : ¬(8 : ℚ) ≠ 8)]
    by_cases hv : v = 0
    · simp [hv]
    · have hn : notional ≠ 0 := by
        rcases h with rfl | hn
        · exact absurd rfl hv
        · exact hn
      by_cases hd : days = 0
      · simp [hv, hn, hd]
      · have harith : (365 : ℚ) * 24 / 8 / (days * 24 / 8) = 365 / days := by
          field_simp
          ring
        simp [hv, hn, harith]

/-- Witness for C6 at v = 2, notional = 100, days = 7. -/
theorem claim_C6_witness :
    ((2 : ℚ) = 0 ∨ (100 : ℚ) ≠ 0) ∧
      funding_apy_basic (some 2) 100 7 =
        Except.ok (some (fru_token_apy 2 8 100 7)) :=
  ⟨Or.inr (by norm_num),
    claim_C6_normalization.2.2.2 2 100 7 (Or.inr (by norm_num))⟩

/-- C4 (amended): the APY computation of `funding_rates_updated.py` guards
its denominator and short-circuits to 0 whenever the notional is 0 (or the
normalized funding PnL is 0); but the basis-point price-spread computation in
`main` has no zero-price guard and raises `ZeroDivisionError` when the smaller
price of a pair is 0, aborting the whole candidate list, and the APY of
`funding_rates.py` guards the numerator instead of the denominator, so a NaN
funding payment combined with a zero notional divides by zero. -/
theorem claim_C4_division_guards :
    ∀ raw interval notional days : ℚ, notional = 0 →
      fru_token_apy raw interval notional days = 0 := by
  intro raw interval notional days h
  unfold fru_token_apy funding_apy_updated
  simp [h]

/-- Witness for C4 at a concrete zero notional. -/
theorem claim_C4_witness :
    (0 : ℚ) = 0 ∧ fru_token_apy 5 1 0 7 = 0 :=
  ⟨rfl, claim_C4_division_guards 5 1 0 7 rfl⟩

/-- C4 counterexample: with a BTC position of current price 0 on binance and
100050 on bybit, the price-spread division raises (the candidate list aborts
as `none`), and `funding_rates.py`'s APY raises on a NaN funding payment with
zero notional — the claim that these ratio computations never divide by zero
is false. -/
theorem claim_C4_counterexample :
    arb_opportunities fetchArbEmpty [posZeroPrice, posArbBybit] = none ∧
      funding_apy_basic none 0 7 = Except.error () := by
  constructor
  · simp [arb_opportunities, buildByToken, posZeroPrice, posArbBybit, modifyA,
      setA, arbForToken, pairsLT, listMapM, mkCandidate, specCandidate,
      lastRate, fetchArbEmpty]
  · simp [funding_apy_basic]

/-- C7: over any position list in which every current price is positive, the
candidate loop completes and produces exactly the closed-form list: for every
token held on at least two exchanges, one candidate per unordered exchange
pair carrying `price_spread_bps = |p1 - p2| / min p1 p2 * 10000`
(`specCandidates`/`specCandidate`), and a token contributes a candidate if and
only if it is held on at least two exchanges. -/
theorem claim_C7_candidates (f : String → String → Except Unit (List ℚ))
    (ps : List PosIn) (hpos : ∀ p ∈ ps, 0 < p.current_price) :
    arb_opportunities f ps = some (specCandidates f (buildByToken ps)) ∧
      ∀ tok : String,
        (∃ e ∈ buildByToken ps, e.1 = tok ∧ 2 ≤ e.2.length) ↔
          ∃ c ∈ specCandidates f (buildByToken ps), c.token = tok :=
  ⟨arb_opportunities_eq f ps hpos, fun tok => spec_tokens_iff f (buildByToken ps) tok⟩

/-- Witness for C7: BTC held at 100000 and 100050 yields the single candidate
with a price spread of exactly 5.0 bps. -/
theorem claim_C7_witness :
    (∀ p ∈ [posArbBinance, posArbBybit], 0 < p.current_price) ∧
      arb_opportunities fetchArbEmpty [posArbBinance, posArbBybit] =
        some (specCandidates fetchArbEmpty
          (buildByToken [posArbBinance, posArbBybit])) ∧
      specCandidates fetchArbEmpty (buildByToken [posArbBinance, posArbBybit]) =
        [⟨"BTC", "binance", "bybit", 5, 0⟩] := by
  have hpos : ∀ p ∈ [posArbBinance, posArbBybit], 0 < p.current_price := by
    intro p hp
    simp only [List.mem_cons, List.not_mem_nil, or_false] at hp
    rcases hp with rfl | rfl <;> norm_num [posArbBinance, posArbBybit]
  refine ⟨hpos, (claim_C7_candidates fetchArbEmpty _ hpos).1, ?_⟩
  simp [specCandidates, buildByToken, posArbBinance, posArbBybit, modifyA,
    setA, pairsLT, specCandidate, lastRate, fetchArbEmpty]
  norm_num

/-- C8 (amended): the two rate fetches of a pair are wrapped in separate
try/except blocks, so a failure on either side is caught independently and
contributes a funding rate of exactly 0 for that side; the pair's
funding-rate spread therefore equals `|other side's latest rate| * 10000` —
which is 0 only when the surviving rate is 0 (or both sides fail) — and the
candidate list is still fully produced. -/
theorem claim_C8_fail_isolated (f : String → String → Except Unit (List ℚ))
    (e1 e2 tok : String) (p1 p2 : ℚ)
    (hfail : f e1 tok = Except.error ()) (hmin : min p1 p2 ≠ 0) :
    mkCandidate f tok e1 e2 p1 p2 = some (specCandidate f tok e1 e2 p1 p2) ∧
      (specCandidate f tok e1 e2 p1 p2).funding_spread_bps =
        |lastRate f e2 tok| * 10000 ∧
      ∀ ps : List PosIn, (∀ p ∈ ps, 0 < p.current_price) →
        arb_opportunities f ps = some (specCandidates f (buildByToken ps)) := by
  refine ⟨?_, ?_, fun ps h => arb_opportunities_eq f ps h⟩
  · unfold mkCandidate
    rw [if_neg hmin]
  · unfold specCandidate
    simp only [lastRate, hfail]
    rw [zero_sub, abs_neg]

/-- Witness for C8 at the concrete failing fetch. -/
theorem claim_C8_witness :
    fetchArbFail "binance" "BTC" = Except.error () ∧ min (100 : ℚ) 101 ≠ 0 ∧
      (mkCandidate fetchArbFail "BTC" "binance" "bybit" 100 101 =
          some (specCandidate fetchArbFail "BTC" "binance" "bybit" 100 101) ∧
        (specCandidate fetchArbFail "BTC" "binance" "bybit" 100 101).funding_spread_bps =
          |lastRate fetchArbFail "bybit" "BTC"| * 10000 ∧
        ∀ ps : List PosIn, (∀ p ∈ ps, 0 < p.current_price) →
          arb_opportunities fetchArbFail ps =
            some (specCandidates fetchArbFail (buildByToken ps))) :=
  ⟨by simp [fetchArbFail], by norm_num,
    claim_C8_fail_isolated fetchArbFail "binance" "bybit" "BTC" 100 101
      (by simp [fetchArbFail]) (by norm_num)⟩

/-- C8 counterexample: with the binance fetch failing and bybit's latest rate
0.0005, the pair's funding-rate spread is 5.0 bps, not the 0 the claim
demands; the candidate list is still produced in full. -/
theorem claim_C8_counterexample :
    fetchArbFail "binance" "BTC" = Except.error () ∧
      arb_opportunities fetchArbFail [posArbP100, posArbP101] =
        some [⟨"BTC", "binance", "bybit", 100, 5⟩] ∧ (5 : ℚ) ≠ 0 := by
  refine ⟨by simp [fetchArbFail], ?_, by norm_num⟩
  simp [arb_opportunities, buildByToken, posArbP100, posArbP101, modifyA,
    setA, arbForToken, pairsLT, listMapM, mkCandidate, specCandidate,
    lastRate, fetchArbFail]
  norm_num [abs_of_nonneg]

end TradingDashboard
